import Mathlib

/-!
Verification of the Wordle duel server (src/server/src/index.ts).

The development shallowly embeds the server's data model and message
handlers: strings are lists of characters, the socket.io room/connection
bookkeeping is an explicit `ServerState`, and every handler is a pure
function from a state and a message payload to a new state plus the list
of emitted messages.  Theorems about the embedding settle the claims of
the specification.
-/

/-- Per-letter feedback symbol, as in the server's union type
`"correct" | "present" | "absent"`. -/
inductive Feedback where
  | correct
  | present
  | absent
deriving DecidableEq

/-- Decrement the remaining count of one letter (`count[ch]--`). -/
def decr (count : Char → Int) (ch : Char) : Char → Int :=
  fun c => if c = ch then count c - 1 else count c

/-- The multiset of the secret's letters, built by
`for (const c of secret) count[c] = (count[c] || 0) + 1`; a letter absent
from the secret has count 0 (in the source its entry is undefined, which
compares to zero the same way in every later test). -/
def initCount (secret : List Char) : Char → Int :=
  fun c => (secret.count c : Int)

/-- Pass 1 of `evaluate`: walk the paired positions of guess and secret;
an exact match is marked `correct` and consumes one occurrence of the
letter; other positions are left unmarked (`none`). Returns the partial
result row and the remaining counts. -/
def pass1 : List Char → List Char → (Char → Int) → List (Option Feedback) × (Char → Int)
  | g :: gs, s :: ss, count =>
    if g = s then
      let rest := pass1 gs ss (decr count g)
      (some Feedback.correct :: rest.1, rest.2)
    else
      let rest := pass1 gs ss count
      (none :: rest.1, rest.2)
  | _, _, count => ([], count)

/-- Pass 2 of `evaluate`: positions already marked are kept
(`if (result[i]) continue`); an unmarked position becomes `present` when
the secret contains the letter and its remaining count is positive
(consuming one occurrence), and `absent` otherwise. -/
def pass2 (secret : List Char) : List (Option Feedback) → List Char → (Char → Int) → List Feedback
  | some fb :: rs, _ :: gs, count => fb :: pass2 secret rs gs count
  | none :: rs, g :: gs, count =>
    if secret.contains g ∧ 0 < count g then
      Feedback.present :: pass2 secret rs gs (decr count g)
    else
      Feedback.absent :: pass2 secret rs gs count
  | _, _, _ => []

/-- The server's `evaluate(guess, secret)`: two-pass duplicate-aware
Wordle feedback. -/
def evaluate (guess secret : List Char) : List Feedback :=
  let p := pass1 guess secret (initCount secret)
  pass2 secret p.1 guess p.2

/-- Pass 2 as the claim words it: a remaining position is `present` iff
the letter's remaining count is still positive, with no separate
membership test.  Second definition, used only to compare `evaluate`
against the claim's description of the canonical algorithm. -/
def specPass2 : List (Option Feedback) → List Char → (Char → Int) → List Feedback
  | some fb :: rs, _ :: gs, count => fb :: specPass2 rs gs count
  | none :: rs, g :: gs, count =>
    if 0 < count g then
      Feedback.present :: specPass2 rs gs (decr count g)
    else
      Feedback.absent :: specPass2 rs gs count
  | _, _, _ => []

/-- The canonical two-pass algorithm exactly as the claim describes it. -/
def specEvaluate (guess secret : List Char) : List Feedback :=
  let p := pass1 guess secret (initCount secret)
  specPass2 p.1 guess p.2

/-- Number of paired positions at which guess and secret agree and carry
the letter `c` (the occurrences of `c` consumed by pass 1). -/
def matchCount (c : Char) : List Char → List Char → Nat
  | g :: gs, s :: ss => (if g = s ∧ g = c then 1 else 0) + matchCount c gs ss
  | _, _ => 0

/-- Number of positions of the final row at which the guess letter is `c`
and the feedback is not `absent`. -/
def markedCount (c : Char) : List Feedback → List Char → Nat
  | fb :: fbs, g :: gs =>
    (if g = c ∧ fb ≠ Feedback.absent then 1 else 0) + markedCount c fbs gs
  | _, _ => 0

/-- Same count over a partial row: positions already marked with a
non-`absent` symbol whose guess letter is `c`. -/
def preMarked (c : Char) : List (Option Feedback) → List Char → Nat
  | some fb :: rs, g :: gs =>
    (if g = c ∧ fb ≠ Feedback.absent then 1 else 0) + preMarked c rs gs
  | none :: rs, _ :: gs => preMarked c rs gs
  | _, _ => 0

/-- The validation regex `/^[A-Z]{5}$/` on a candidate word. -/
def isWord5 (w : List Char) : Bool :=
  w.length == 5 && w.all (fun c => 65 ≤ c.toNat && c.toNat ≤ 90)

-- ## Concrete words used by examples and witnesses

def wLLAMA : List Char := ['L', 'L', 'A', 'M', 'A']

def wALLOY : List Char := ['A', 'L', 'L', 'O', 'Y']

def wCRANE : List Char := ['C', 'R', 'A', 'N', 'E']

def wAAAAA : List Char := ['A', 'A', 'A', 'A', 'A']

-- ## Server data model (src/server/src/index.ts)

/-- `type Role = "setter" | "guesser"`. -/
inductive Role where
  | setter
  | guesser
deriving DecidableEq

/-- The per-room `Game` record. -/
structure Game where
  secret : List Char
  guesses : List (List Char)
  feedbacks : List (List Feedback)
  players : List Role
  started : Bool
  setterSocketId : Option String
  locked : Bool
deriving DecidableEq

/-- Global server state: the `games` map (insertion-ordered association
list, like a JS `Map`), the socket.io room membership of each room, and
the set of connected sockets. -/
structure ServerState where
  games : List (String × Game)
  rooms : List (String × List String)
  connected : List String
deriving DecidableEq

def errRoomNotFound : String := "Room not found"

def errRoomFull : String := "Room full"

def errInProgress : String := "Game already in progress"

def errInvalidWord : String := "Invalid word"

/-- Outbound message payloads. -/
inductive Msg where
  | roomCreated (room : String) (role : Role)
  | roomJoined (room : String) (role : Role)
  | opponentJoined
  | gameStarted
  | guessResult (guess : List Char) (feedback : List Feedback) (won : Bool)
      (over : Bool) (attempts : Nat)
  | rolesSwapped (newRole : Role)
  | error (text : String)
deriving DecidableEq

/-- An emission: to one socket, to a whole room, or scheduled by the
post-swap `setTimeout` (delivered later, outside this model's time). -/
inductive Out where
  | toSocket (sid : String) (m : Msg)
  | toRoom (room : String) (m : Msg)
  | delayed (sid : String) (m : Msg)
deriving DecidableEq

/-- `games.get(room)`. -/
def lookupGame : List (String × Game) → String → Option Game
  | [], _ => none
  | p :: ps, k => if p.1 = k then some p.2 else lookupGame ps k

/-- `games.set(room, g)`: replace in place, else append (JS `Map.set`
keeps the original insertion position of an existing key). -/
def setGame : List (String × Game) → String → Game → List (String × Game)
  | [], k, v => [(k, v)]
  | p :: ps, k, v => if p.1 = k then (k, v) :: ps else p :: setGame ps k v

/-- The membership of a socket.io room (empty when the room is absent
from the adapter). -/
def roomMembers : List (String × List String) → String → List String
  | [], _ => []
  | p :: ps, room => if p.1 = room then p.2 else roomMembers ps room

/-- `socket.join(room)`: add the socket to the room's membership set. -/
def joinRoom : List (String × List String) → String → String → List (String × List String)
  | [], room, sid => [(room, [sid])]
  | p :: ps, room, sid =>
    if p.1 = room then (room, if p.2.contains sid then p.2 else p.2 ++ [sid]) :: ps
    else p :: joinRoom ps room sid

/-- Drop a socket from every room (socket.io does this before the
`disconnect` event fires). -/
def removeSock (rooms : List (String × List String)) (sid : String) :
    List (String × List String) :=
  rooms.map (fun p => (p.1, p.2.filter (fun i => i ≠ sid)))

-- ## Message handlers

/-- The `create` handler: seed a fresh session with the caller seated as
setter; `room` is the code produced by `createRoom()`. -/
def createStep (st : ServerState) (sid room : String) : ServerState × List Out :=
  let game : Game :=
    { secret := []
      guesses := []
      feedbacks := []
      players := [Role.setter]
      started := false
      setterSocketId := some sid
      locked := false }
  ({ st with games := setGame st.games room game, rooms := joinRoom st.rooms room sid },
   [Out.toSocket sid (Msg.roomCreated room Role.setter)])

/-- The `join` handler. -/
def joinStep (st : ServerState) (sid room : String) : ServerState × List Out :=
  match lookupGame st.games room with
  | none => (st, [Out.toSocket sid (Msg.error errRoomNotFound)])
  | some game =>
    if game.players.contains Role.guesser then
      (st, [Out.toSocket sid (Msg.error errRoomFull)])
    else if game.locked && game.started then
      (st, [Out.toSocket sid (Msg.error errInProgress)])
    else
      let game1 := { game with players := game.players ++ [Role.guesser] }
      let rooms1 := joinRoom st.rooms room sid
      let st1 := { st with games := setGame st.games room game1, rooms := rooms1 }
      let setterOuts :=
        match game1.setterSocketId with
        | some s =>
          if st1.connected.contains s && (roomMembers st1.rooms room).contains s then
            [Out.toSocket s Msg.opponentJoined]
          else []
        | none => []
      if game1.locked && !game1.started then
        ({ st1 with games := setGame st1.games room { game1 with started := true } },
         [Out.toSocket sid (Msg.roomJoined room Role.guesser)] ++ setterOuts ++
           [Out.toRoom room Msg.gameStarted])
      else
        (st1, [Out.toSocket sid (Msg.roomJoined room Role.guesser)] ++ setterOuts)

/-- The `set-word` handler. -/
def setWordStep (st : ServerState) (sid room : String) (word : List Char) :
    ServerState × List Out :=
  match lookupGame st.games room with
  | none => (st, [])
  | some game =>
    if game.secret ≠ [] then (st, [])
    else if game.setterSocketId ≠ some sid then (st, [])
    else
      let w := word.map Char.toUpper
      if !isWord5 w then (st, [Out.toSocket sid (Msg.error errInvalidWord)])
      else
        let game1 := { game with secret := w, locked := true }
        if game1.players.contains Role.guesser then
          ({ st with games := setGame st.games room { game1 with started := true } },
           [Out.toRoom room Msg.gameStarted])
        else
          ({ st with games := setGame st.games room game1 }, [])

/-- The `guess` handler. -/
def guessStep (st : ServerState) (_sid room : String) (guess : List Char) :
    ServerState × List Out :=
  match lookupGame st.games room with
  | none => (st, [])
  | some game =>
    if game.secret = [] || !game.started then (st, [])
    else
      let g := guess.map Char.toUpper
      if !isWord5 g then (st, [])
      else
        let fb := evaluate g game.secret
        let guesses1 := game.guesses ++ [g]
        let game1 := { game with guesses := guesses1, feedbacks := game.feedbacks ++ [fb] }
        let won := fb.all (fun x => x = Feedback.correct)
        let over := won || decide (6 ≤ guesses1.length)
        ({ st with games := setGame st.games room game1 },
         [Out.toRoom room (Msg.guessResult g fb won over guesses1.length)])

/-- The `request-role-swap` handler. -/
def swapStep (st : ServerState) (_sid room : String) : ServerState × List Out :=
  match lookupGame st.games room with
  | none => (st, [])
  | some game =>
    if !game.started || game.players.length < 2 then (st, [])
    else
      let players1 :=
        match game.players with
        | a :: b :: _ => [b, a]
        | l => l
      let roomSockets := roomMembers st.rooms room
      let newSetter :=
        (roomSockets.find? (fun i => !(some i == game.setterSocketId))).orElse
          (fun _ => roomSockets.head?)
      let game1 :=
        { game with
          players := players1
          secret := []
          guesses := []
          feedbacks := []
          started := false
          locked := false
          setterSocketId := newSetter }
      let outs := roomSockets.map (fun i =>
        Out.toSocket i
          (Msg.rolesSwapped (if some i = newSetter then Role.setter else Role.guesser)))
      let delayedOuts :=
        match newSetter with
        | some nid => [Out.delayed nid Msg.opponentJoined]
        | none => []
      ({ st with games := setGame st.games room game1 }, outs ++ delayedOuts)

/-- One entry of the disconnect sweep over `games.entries()`: delete the
room when its membership is empty, otherwise reassign the setter socket
if the departing socket held it. -/
def dcEntry (rooms1 : List (String × List String)) (sid : String)
    (p : String × Game) : Option (String × Game) :=
  let socketsInRoom := roomMembers rooms1 p.1
  if socketsInRoom.length = 0 then none
  else if p.2.setterSocketId = some sid then
    some (p.1, { p.2 with setterSocketId := socketsInRoom.find? (fun i => i ≠ sid) })
  else some (p.1, p.2)

/-- The `disconnect` handler (the socket has already left all rooms when
it runs). -/
def disconnectStep (st : ServerState) (sid : String) : ServerState :=
  let rooms1 := removeSock st.rooms sid
  { games := st.games.filterMap (dcEntry rooms1 sid)
    rooms := rooms1
    connected := st.connected.filter (fun i => i ≠ sid) }

/-- A new transport connection. -/
def connectStep (st : ServerState) (sid : String) : ServerState :=
  let c1 := if st.connected.contains sid then st.connected else st.connected ++ [sid]
  { st with connected := c1 }

-- ## Lemmas about the two passes

/-- How many of the emissions are a `game-started` broadcast to `room`. -/
def countGameStarted (room : String) (outs : List Out) : Nat :=
  (outs.filter (fun o =>
    match o with
    | Out.toRoom r Msg.gameStarted => r == room
    | _ => false)).length

-- ## Reachable states

/-- The states the server can actually be in: the empty registry at boot,
closed under transport connections, the five message handlers (only ever
fired for a connected socket), and disconnects. The room code passed to
`create` is the `createRoom()` output, an arbitrary token here. -/
inductive Reachable : ServerState → Prop where
  | boot : Reachable { games := [], rooms := [], connected := [] }
  | connect (st : ServerState) (sid : String) :
      Reachable st → Reachable (connectStep st sid)
  | create (st : ServerState) (sid room : String) :
      Reachable st → sid ∈ st.connected → Reachable (createStep st sid room).1
  | join (st : ServerState) (sid room : String) :
      Reachable st → sid ∈ st.connected → Reachable (joinStep st sid room).1
  | setWord (st : ServerState) (sid room : String) (word : List Char) :
      Reachable st → sid ∈ st.connected → Reachable (setWordStep st sid room word).1
  | guess (st : ServerState) (sid room : String) (w : List Char) :
      Reachable st → sid ∈ st.connected → Reachable (guessStep st sid room w).1
  | swap (st : ServerState) (sid room : String) :
      Reachable st → sid ∈ st.connected → Reachable (swapStep st sid room).1
  | disconnect (st : ServerState) (sid : String) :
      Reachable st → Reachable (disconnectStep st sid)

/-- The seat configurations a session's `players` list can take: the
creator alone, or both seats filled in either order. -/
def playersOk (g : Game) : Prop :=
  g.players = [Role.setter] ∨ g.players = [Role.setter, Role.guesser] ∨
    g.players = [Role.guesser, Role.setter]

-- ## Concrete sockets, rooms and states for witnesses and counterexamples

def sidA : String := "A"

def sidB : String := "B"

def sidC : String := "C"

def roomR : String := "ROOM01"

/-- Feedback of guess "AAAAA" against secret "CRANE". -/
def fbA : List Feedback :=
  [Feedback.absent, Feedback.absent, Feedback.correct, Feedback.absent,
    Feedback.absent]

/-- A session mid-round with all six guesses already used. -/
def cexGame6 : Game :=
  { secret := wCRANE
    guesses := [wAAAAA, wAAAAA, wAAAAA, wAAAAA, wAAAAA, wAAAAA]
    feedbacks := [fbA, fbA, fbA, fbA, fbA, fbA]
    players := [Role.setter, Role.guesser]
    started := true
    setterSocketId := some sidA
    locked := true }

def cexSt6 : ServerState :=
  { games := [(roomR, cexGame6)]
    rooms := [(roomR, [sidA, sidB])]
    connected := [sidA, sidB] }

/-- A session whose word is locked but whose round has not started. -/
def lockedGame : Game :=
  { secret := wCRANE
    guesses := []
    feedbacks := []
    players := [Role.setter]
    started := false
    setterSocketId := some sidA
    locked := true }

def lockedSt : ServerState :=
  { games := [(roomR, lockedGame)]
    rooms := [(roomR, [sidA])]
    connected := [sidA, sidB] }

/-- A session just created, no secret yet. -/
def freshGame : Game :=
  { secret := []
    guesses := []
    feedbacks := []
    players := [Role.setter]
    started := false
    setterSocketId := some sidA
    locked := false }

def freshSt : ServerState :=
  { games := [(roomR, freshGame)]
    rooms := [(roomR, [sidA])]
    connected := [sidA] }

/-- A 4-letter word, rejected by the `/^[A-Z]{5}$/` validation. -/
def wBAD : List Char := ['C', 'R', 'A', 'N']

-- A concrete session trace: two connections, create, join, set-word,
-- then seven identical wrong guesses.

/-- A session whose round is in progress with no guesses yet. -/
def startedGame : Game :=
  { secret := wCRANE
    guesses := []
    feedbacks := []
    players := [Role.setter, Role.guesser]
    started := true
    setterSocketId := some sidA
    locked := true }

def startedSt : ServerState :=
  { games := [(roomR, startedGame)]
    rooms := [(roomR, [sidA, sidB])]
    connected := [sidA, sidB] }

def t0 : ServerState := { games := [], rooms := [], connected := [] }

def t1 : ServerState := connectStep t0 sidA

def t2 : ServerState := connectStep t1 sidB

def t3 : ServerState := (createStep t2 sidA roomR).1

def t4 : ServerState := (joinStep t3 sidB roomR).1

def t5 : ServerState := (setWordStep t4 sidA roomR wCRANE).1

def t6 : ServerState := (guessStep t5 sidB roomR wAAAAA).1

def t7 : ServerState := (guessStep t6 sidB roomR wAAAAA).1

def t8 : ServerState := (guessStep t7 sidB roomR wAAAAA).1

def t9 : ServerState := (guessStep t8 sidB roomR wAAAAA).1

def t10 : ServerState := (guessStep t9 sidB roomR wAAAAA).1

def t11 : ServerState := (guessStep t10 sidB roomR wAAAAA).1

def t12 : ServerState := (guessStep t11 sidB roomR wAAAAA).1

theorem pass1_snd (c : Char) :
    ∀ (gs ss : List Char) (count : Char → Int),
      (pass1 gs ss count).2 c = count c - (matchCount c gs ss : Int) := by
  intro gs
  induction gs with
  | nil => intro ss count; cases ss <;> simp [pass1, matchCount]
  | cons g gs ih =>
    intro ss count
    cases ss with
    | nil => simp [pass1, matchCount]
    | cons s ss =>
      by_cases h : g = s
      · subst h
        by_cases hc : g = c
        · subst hc
          simp [pass1, matchCount, ih, decr]
          omega
        · simp [pass1, matchCount, ih, decr, hc, Ne.symm hc]
      · simp [pass1, matchCount, ih, h]

theorem matchCount_le (c : Char) :
    ∀ (gs ss : List Char), matchCount c gs ss ≤ ss.count c := by
  intro gs
  induction gs with
  | nil => intro ss; cases ss <;> simp [matchCount]
  | cons g gs ih =>
    intro ss
    cases ss with
    | nil => simp [matchCount]
    | cons s ss =>
      have h2 := ih ss
      by_cases h : g = s ∧ g = c
      · obtain ⟨h1, hc⟩ := h
        subst h1; subst hc
        simp [matchCount, List.count_cons]
        omega
      · simp only [matchCount, if_neg h]
        simp [List.count_cons]
        omega

theorem pass2_eq_specPass2 (secret : List Char) :
    ∀ (rs : List (Option Feedback)) (gs : List Char) (count : Char → Int),
      (∀ c, 0 < count c → secret.contains c = true) →
      pass2 secret rs gs count = specPass2 rs gs count := by
  intro rs
  induction rs with
  | nil => intro gs count _; cases gs <;> simp [pass2, specPass2]
  | cons r rs ih =>
    intro gs count hH
    cases gs with
    | nil => cases r <;> simp [pass2, specPass2]
    | cons g gs =>
      cases r with
      | some fb => simp [pass2, specPass2, ih gs count hH]
      | none =>
        by_cases hpos : 0 < count g
        · have hmem : secret.contains g = true := hH g hpos
          have hH2 : ∀ c, 0 < decr count g c → secret.contains c = true := by
            intro c hc
            apply hH
            by_cases hcg : c = g
            · subst hcg
              simp [decr] at hc
              omega
            · simpa [decr, hcg] using hc
          have gmem : g ∈ secret := by simpa using hmem
          simp [pass2, specPass2, gmem, hpos, ih gs _ hH2]
        · have hcond : ¬(secret.contains g = true ∧ 0 < count g) := by
            intro hand; exact hpos hand.2
          simp only [pass2, specPass2, if_neg hcond, if_neg hpos]
          simp [ih gs count hH]

theorem evaluate_eq_specEvaluate (guess secret : List Char) :
    evaluate guess secret = specEvaluate guess secret := by
  unfold evaluate specEvaluate
  apply pass2_eq_specPass2
  intro c hc
  rw [pass1_snd] at hc
  have hcount : 0 < secret.count c := by
    have := matchCount_le c guess secret
    simp [initCount] at hc
    omega
  have hmem : c ∈ secret := List.count_pos_iff.mp hcount
  simpa using hmem

-- ## Position-wise characterisation of `correct`

theorem pass1_fst_length :
    ∀ (gs ss : List Char) (count : Char → Int),
      (pass1 gs ss count).1.length = min gs.length ss.length := by
  intro gs
  induction gs with
  | nil => intro ss count; cases ss <;> simp [pass1]
  | cons g gs ih =>
    intro ss count
    cases ss with
    | nil => simp [pass1]
    | cons s ss =>
      by_cases h : g = s <;> simp [pass1, h, ih] <;> omega

theorem pass2_length (secret : List Char) :
    ∀ (rs : List (Option Feedback)) (gs : List Char) (count : Char → Int),
      (pass2 secret rs gs count).length = min rs.length gs.length := by
  intro rs
  induction rs with
  | nil => intro gs count; cases gs <;> simp [pass2]
  | cons r rs ih =>
    intro gs count
    cases gs with
    | nil => cases r <;> simp [pass2]
    | cons g gs =>
      cases r with
      | some fb => simp [pass2, ih]; omega
      | none =>
        simp only [pass2]
        split <;> simp [ih] <;> omega

theorem pass1_fst_get :
    ∀ (gs ss : List Char) (count : Char → Int) (i : Nat),
      ((pass1 gs ss count).1)[i]? =
        (match gs[i]?, ss[i]? with
          | some g, some s => some (if g = s then some Feedback.correct else none)
          | _, _ => none) := by
  intro gs
  induction gs with
  | nil => intro ss count i; cases ss <;> simp [pass1]
  | cons g gs ih =>
    intro ss count i
    cases ss with
    | nil => simp [pass1]
    | cons s ss =>
      cases i with
      | zero => by_cases h : g = s <;> simp [pass1, h]
      | succ j => by_cases h : g = s <;> simp [pass1, h, ih]

theorem pass2_get_correct (secret : List Char) :
    ∀ (rs : List (Option Feedback)) (gs : List Char) (count : Char → Int) (i : Nat),
      rs.length = gs.length →
      ((pass2 secret rs gs count)[i]? = some Feedback.correct ↔
        rs[i]? = some (some Feedback.correct)) := by
  intro rs
  induction rs with
  | nil =>
    intro gs count i hlen
    have hgs : gs = [] := by cases gs <;> simp_all
    subst hgs
    simp [pass2]
  | cons r rs ih =>
    intro gs count i hlen
    cases gs with
    | nil => simp at hlen
    | cons g gs =>
      have hlen2 : rs.length = gs.length := by simpa using hlen
      cases r with
      | some fb =>
        cases i with
        | zero => simp [pass2]
        | succ j => simpa [pass2] using ih gs count j hlen2
      | none =>
        simp only [pass2]
        split
        · cases i with
          | zero => simp
          | succ j => simpa using ih gs _ j hlen2
        · cases i with
          | zero => simp
          | succ j => simpa using ih gs count j hlen2

theorem evaluate_correct_iff (g s : List Char) (hg : g.length = 5) (hs : s.length = 5)
    (i : Nat) (hi : i < 5) :
    ((evaluate g s)[i]? = some Feedback.correct ↔ g[i]? = s[i]?) := by
  unfold evaluate
  rw [pass2_get_correct s _ _ _ i (by simp [pass1_fst_length, hg, hs]),
    pass1_fst_get]
  obtain ⟨gi, hgi⟩ : ∃ x, g[i]? = some x := by
    have hilen : i < g.length := by omega
    exact ⟨g.get ⟨i, hilen⟩, by simp [List.getElem?_eq_getElem hilen]⟩
  obtain ⟨si, hsi⟩ : ∃ x, s[i]? = some x := by
    have hilen : i < s.length := by omega
    exact ⟨s.get ⟨i, hilen⟩, by simp [List.getElem?_eq_getElem hilen]⟩
  rw [hgi, hsi]
  by_cases h : gi = si <;> simp [h]

-- ## The letter-count bound

theorem pass2_marked (secret : List Char) (c : Char) :
    ∀ (rs : List (Option Feedback)) (gs : List Char) (count : Char → Int),
      markedCount c (pass2 secret rs gs count) gs ≤
        preMarked c rs gs + (count c).toNat := by
  intro rs
  induction rs with
  | nil => intro gs count; cases gs <;> simp [pass2, markedCount, preMarked]
  | cons r rs ih =>
    intro gs count
    cases gs with
    | nil => cases r <;> simp [pass2, markedCount, preMarked]
    | cons g gs =>
      cases r with
      | some fb =>
        have := ih gs count
        simp only [pass2, markedCount, preMarked]
        omega
      | none =>
        by_cases h : secret.contains g = true ∧ 0 < count g
        · have hrec := ih gs (decr count g)
          simp only [pass2, if_pos h, markedCount, preMarked]
          by_cases hc : g = c
          · subst hc
            have hdc : (decr count g) g = count g - 1 := by simp [decr]
            rw [hdc] at hrec
            have hpos := h.2
            have hone :
                (if g = g ∧ Feedback.present ≠ Feedback.absent then 1 else 0) = 1 := by
              simp
            rw [hone]
            omega
          · have hdc : (decr count g) c = count c := by simp [decr, Ne.symm hc]
            rw [hdc] at hrec
            simp only [hc, false_and, if_neg, ite_false]
            omega
        · have hrec := ih gs count
          simp only [pass2, if_neg h, markedCount, preMarked]
          have : (if g = c ∧ Feedback.absent ≠ Feedback.absent then 1 else 0) = 0 := by
            simp
          omega

theorem pass1_preMarked (c : Char) :
    ∀ (gs ss : List Char) (count : Char → Int),
      preMarked c (pass1 gs ss count).1 gs = matchCount c gs ss := by
  intro gs
  induction gs with
  | nil => intro ss count; cases ss <;> simp [pass1, preMarked, matchCount]
  | cons g gs ih =>
    intro ss count
    cases ss with
    | nil => simp [pass1, preMarked, matchCount]
    | cons s ss =>
      by_cases h : g = s
      · subst h
        by_cases hc : g = c <;>
          simp [pass1, preMarked, matchCount, hc, ih]
      · simp [pass1, preMarked, matchCount, h, ih]

theorem evaluate_marked_le (g s : List Char) (c : Char) :
    markedCount c (evaluate g s) g ≤ s.count c := by
  show markedCount c
    (pass2 s (pass1 g s (initCount s)).1 g (pass1 g s (initCount s)).2) g ≤ s.count c
  have h1 := pass2_marked s c (pass1 g s (initCount s)).1 g (pass1 g s (initCount s)).2
  rw [pass1_preMarked] at h1
  have h2 := pass1_snd c g s (initCount s)
  have h3 := matchCount_le c g s
  simp only [initCount] at h2
  omega

/-- C1: for every pair of 5-character uppercase A-Z strings, `evaluate`
returns the 5-element row of the canonical two-pass algorithm: position
`i` is `correct` iff `guess[i] = secret[i]`; a remaining position is
`present` iff the letter's remaining count (decremented by each correct
mark and each earlier present mark) is still positive, `absent`
otherwise; no letter is marked correct/present more often than it occurs
in the secret; secret "ALLOY" with guess "LLAMA" yields
[present, correct, present, absent, absent]. -/
theorem evaluate_canonical_two_pass (g s : List Char)
    (hg : isWord5 g = true) (hs : isWord5 s = true) :
    evaluate g s = specEvaluate g s ∧
    (evaluate g s).length = 5 ∧
    (∀ i, i < 5 → ((evaluate g s)[i]? = some Feedback.correct ↔ g[i]? = s[i]?)) ∧
    (∀ c, markedCount c (evaluate g s) g ≤ s.count c) ∧
    evaluate wLLAMA wALLOY =
      [Feedback.present, Feedback.correct, Feedback.present, Feedback.absent,
        Feedback.absent] := by
  have hgl : g.length = 5 := by
    simp [isWord5] at hg
    exact hg.1
  have hsl : s.length = 5 := by
    simp [isWord5] at hs
    exact hs.1
  refine ⟨evaluate_eq_specEvaluate g s, ?_, ?_, ?_, by decide⟩
  · show (pass2 s (pass1 g s (initCount s)).1 g (pass1 g s (initCount s)).2).length = 5
    rw [pass2_length, pass1_fst_length, hgl, hsl]
    decide
  · intro i hi
    exact evaluate_correct_iff g s hgl hsl i hi
  · intro c
    exact evaluate_marked_le g s c

/-- Witness for `evaluate_canonical_two_pass` at guess "LLAMA",
secret "ALLOY". -/
theorem evaluate_canonical_two_pass_witness :
    evaluate wLLAMA wALLOY = specEvaluate wLLAMA wALLOY ∧
    (evaluate wLLAMA wALLOY).length = 5 ∧
    (∀ i, i < 5 →
      ((evaluate wLLAMA wALLOY)[i]? = some Feedback.correct ↔
        wLLAMA[i]? = wALLOY[i]?)) ∧
    (∀ c, markedCount c (evaluate wLLAMA wALLOY) wLLAMA ≤ wALLOY.count c) ∧
    evaluate wLLAMA wALLOY =
      [Feedback.present, Feedback.correct, Feedback.present, Feedback.absent,
        Feedback.absent] :=
  evaluate_canonical_two_pass wLLAMA wALLOY (by decide) (by decide)

-- ## Generic helper lemmas

theorem toNat_ofNat_valid (n : Nat) (h : n < 55296) : (Char.ofNat n).toNat = n := by
  have hv : n.isValidChar := Or.inl h
  simp [Char.ofNat, hv, Char.ofNatAux, Char.toNat, UInt32.toNat, BitVec.toNat_ofNatLt]

theorem toUpper_idem (c : Char) : c.toUpper.toUpper = c.toUpper := by
  by_cases h : c.toNat ≥ 97 ∧ c.toNat ≤ 122
  · have h1 : c.toUpper = Char.ofNat (c.toNat - 32) := by
      unfold Char.toUpper
      simp [h]
    have h2 : (Char.ofNat (c.toNat - 32)).toNat = c.toNat - 32 :=
      toNat_ofNat_valid _ (by omega)
    rw [h1]
    unfold Char.toUpper
    simp [h2]
    omega
  · have h1 : c.toUpper = c := by
      unfold Char.toUpper
      simp [h]
    rw [h1, h1]

theorem map_toUpper_idem (w : List Char) :
    (w.map Char.toUpper).map Char.toUpper = w.map Char.toUpper := by
  induction w with
  | nil => rfl
  | cons c cs ih => simp [toUpper_idem, ih]

theorem lookupGame_setGame_self :
    ∀ (m : List (String × Game)) (k : String) (v : Game),
      lookupGame (setGame m k v) k = some v := by
  intro m
  induction m with
  | nil => intro k v; simp [setGame, lookupGame]
  | cons p ps ih =>
    intro k v
    by_cases h : p.1 = k <;> simp [setGame, lookupGame, h, ih]

theorem lookupGame_mem :
    ∀ (m : List (String × Game)) (k : String) (g : Game),
      lookupGame m k = some g → (k, g) ∈ m := by
  intro m
  induction m with
  | nil => intro k g h; simp [lookupGame] at h
  | cons p ps ih =>
    intro k g h
    by_cases hk : p.1 = k
    · subst hk
      simp [lookupGame] at h
      subst h
      exact List.mem_cons_self _ _
    · simp [lookupGame, hk] at h
      exact List.mem_cons_of_mem _ (ih k g h)

theorem mem_setGame :
    ∀ (m : List (String × Game)) (k : String) (v : Game) (p : String × Game),
      p ∈ setGame m k v → p = (k, v) ∨ p ∈ m := by
  intro m
  induction m with
  | nil => intro k v p h; simp [setGame] at h; left; exact h
  | cons q qs ih =>
    intro k v p h
    by_cases hk : q.1 = k
    · simp [setGame, hk] at h
      rcases h with h | h
      · left; exact h
      · right; exact List.mem_cons_of_mem _ h
    · simp [setGame, hk] at h
      rcases h with h | h
      · right
        rw [h]
        exact List.mem_cons_self _ _
      · rcases ih k v p h with h2 | h2
        · left; exact h2
        · right
          exact List.mem_cons_of_mem _ h2

-- ## Join-handler branch lemmas

theorem joinStep_notFound (st : ServerState) (sid room : String)
    (h : lookupGame st.games room = none) :
    joinStep st sid room = (st, [Out.toSocket sid (Msg.error errRoomNotFound)]) := by
  unfold joinStep
  rw [h]

theorem joinStep_full (st : ServerState) (sid room : String) (game : Game)
    (h : lookupGame st.games room = some game)
    (hg : game.players.contains Role.guesser = true) :
    joinStep st sid room = (st, [Out.toSocket sid (Msg.error errRoomFull)]) := by
  unfold joinStep
  rw [h]
  dsimp only
  rw [if_pos hg]

/-- C4: joining a room whose session is locked and started always fails
with a full/in-progress error emitted only to the joining connection,
and changes no state. -/
theorem join_locked_started_rejected (st : ServerState) (sid room : String)
    (game : Game) (h : lookupGame st.games room = some game)
    (hl : game.locked = true) (hs : game.started = true) :
    joinStep st sid room = (st, [Out.toSocket sid (Msg.error errRoomFull)]) ∨
    joinStep st sid room = (st, [Out.toSocket sid (Msg.error errInProgress)]) := by
  by_cases hg : game.players.contains Role.guesser = true
  · left
    exact joinStep_full st sid room game h hg
  · right
    unfold joinStep
    rw [h]
    dsimp only
    rw [if_neg (by simpa using hg)]
    rw [if_pos (by simp [hl, hs])]

/-- Witness for `join_locked_started_rejected`: a third socket tries to
join the six-guess session, which is locked and started. -/
theorem join_locked_started_rejected_witness :
    joinStep cexSt6 sidC roomR =
      (cexSt6, [Out.toSocket sidC (Msg.error errRoomFull)]) ∨
    joinStep cexSt6 sidC roomR =
      (cexSt6, [Out.toSocket sidC (Msg.error errInProgress)]) :=
  join_locked_started_rejected cexSt6 sidC roomR cexGame6 (by decide) (by decide)
    (by decide)

theorem countGameStarted_append (room : String) (a b : List Out) :
    countGameStarted room (a ++ b) = countGameStarted room a + countGameStarted room b := by
  simp [countGameStarted, List.filter_append]

/-- C5: joining a room whose word is locked but whose round has not
started, with the guesser seat free, succeeds (`room-joined` goes to the
joiner first), sets `started`, and emits exactly one `game-started`
broadcast to the room. -/
theorem join_locked_unstarted_starts (st : ServerState) (sid room : String)
    (game : Game) (hg : lookupGame st.games room = some game)
    (hl : game.locked = true) (hs : game.started = false)
    (hng : game.players.contains Role.guesser = false) :
    lookupGame (joinStep st sid room).1.games room =
      some { game with players := game.players ++ [Role.guesser], started := true } ∧
    countGameStarted room (joinStep st sid room).2 = 1 ∧
    (joinStep st sid room).2.head? =
      some (Out.toSocket sid (Msg.roomJoined room Role.guesser)) := by
  unfold joinStep
  rw [hg]
  dsimp only
  rw [if_neg (by simpa using hng)]
  rw [if_neg (by simp [hs])]
  rw [if_pos (by simp [hl, hs])]
  refine ⟨lookupGame_setGame_self _ _ _, ?_, rfl⟩
  rw [countGameStarted_append, countGameStarted_append]
  have h1 : countGameStarted room [Out.toSocket sid (Msg.roomJoined room Role.guesser)] = 0 := rfl
  have h3 : countGameStarted room [Out.toRoom room Msg.gameStarted] = 1 := by
    simp [countGameStarted]
  have h2 : ∀ outs2 : List Out,
      (∀ o ∈ outs2, ∃ s m, o = Out.toSocket s m) → countGameStarted room outs2 = 0 := by
    intro outs2 hall
    induction outs2 with
    | nil => rfl
    | cons o os ih =>
      obtain ⟨s, m, rfl⟩ := hall o (List.mem_cons_self _ _)
      have := ih (fun o ho => hall o (List.mem_cons_of_mem _ ho))
      simpa [countGameStarted] using this
  rw [h1, h3, h2]
  · intro o ho
    rcases hset : game.setterSocketId with _ | s
    · rw [hset] at ho
      simp at ho
    · rw [hset] at ho
      dsimp only at ho
      split at ho
      · simp at ho
        exact ⟨s, Msg.opponentJoined, ho⟩
      · simp at ho

/-- Witness for `join_locked_unstarted_starts`: the second socket joins
the room whose word "CRANE" is locked but whose round is unstarted. -/
theorem join_locked_unstarted_starts_witness :
    lookupGame (joinStep lockedSt sidB roomR).1.games roomR =
      some { lockedGame with
              players := lockedGame.players ++ [Role.guesser], started := true } ∧
    countGameStarted roomR (joinStep lockedSt sidB roomR).2 = 1 ∧
    (joinStep lockedSt sidB roomR).2.head? =
      some (Out.toSocket sidB (Msg.roomJoined roomR Role.guesser)) :=
  join_locked_unstarted_starts lockedSt sidB roomR lockedGame (by decide) (by decide)
    (by decide) (by decide)

/-- C6: `set-word` is a no-op unless the session has no secret yet and the
caller is the recognized setter; the word is uppercased and anything that
is not 5 letters A-Z is rejected with an "Invalid word" error and no
state change; once the secret is set, repeating the call never mutates
state and yields the same no-op. -/
theorem setWord_guarded (st : ServerState) (sid room : String) (word : List Char)
    (game : Game) (hg : lookupGame st.games room = some game) :
    (game.secret ≠ [] → setWordStep st sid room word = (st, []) ∧
      setWordStep (setWordStep st sid room word).1 sid room word = (st, [])) ∧
    (game.setterSocketId ≠ some sid → setWordStep st sid room word = (st, [])) ∧
    (game.secret = [] → game.setterSocketId = some sid →
      isWord5 (word.map Char.toUpper) = false →
      setWordStep st sid room word =
        (st, [Out.toSocket sid (Msg.error errInvalidWord)])) ∧
    (game.secret = [] → game.setterSocketId = some sid →
      isWord5 (word.map Char.toUpper) = true →
      lookupGame (setWordStep st sid room word).1.games room =
        some { game with
                secret := word.map Char.toUpper
                locked := true
                started :=
                  if game.players.contains Role.guesser then true
                  else game.started }) := by
  have hbase : game.secret ≠ [] → setWordStep st sid room word = (st, []) := by
    intro hsec
    unfold setWordStep
    rw [hg]
    dsimp only
    rw [if_pos hsec]
  refine ⟨?_, ?_, ?_, ?_⟩
  · intro hsec
    refine ⟨hbase hsec, ?_⟩
    rw [hbase hsec]
    exact hbase hsec
  · intro hset
    by_cases hsec : game.secret = []
    · unfold setWordStep
      rw [hg]
      dsimp only
      rw [if_neg (by simp [hsec])]
      rw [if_pos hset]
    · exact hbase hsec
  · intro hsec hset hw
    unfold setWordStep
    rw [hg]
    dsimp only
    rw [if_neg (by simp [hsec])]
    rw [if_neg (by simp [hset])]
    rw [if_pos (by simp [hw])]
  · intro hsec hset hw
    unfold setWordStep
    rw [hg]
    dsimp only
    rw [if_neg (by simp [hsec])]
    rw [if_neg (by simp [hset])]
    rw [if_neg (by simp [hw])]
    by_cases hgs : game.players.contains Role.guesser = true
    · rw [if_pos hgs]
      rw [if_pos hgs]
      exact lookupGame_setGame_self _ _ _
    · rw [if_neg hgs]
      rw [if_neg hgs]
      exact lookupGame_setGame_self _ _ _

/-- Witness for `setWord_guarded`: a 4-letter word on a fresh session is
rejected with "Invalid word" and no state change, and `set-word` on a
session whose secret is already set is a silent no-op. -/
theorem setWord_guarded_witness :
    setWordStep freshSt sidA roomR wBAD =
      (freshSt, [Out.toSocket sidA (Msg.error errInvalidWord)]) ∧
    setWordStep lockedSt sidA roomR wCRANE = (lockedSt, []) :=
  ⟨(setWord_guarded freshSt sidA roomR wBAD freshGame (by decide)).2.2.1 rfl rfl
      (by decide),
   ((setWord_guarded lockedSt sidA roomR wCRANE lockedGame (by decide)).1
      (by decide)).1⟩

-- ## The guess handler on an in-progress round

theorem guessStep_run (st : ServerState) (sid room : String) (game : Game)
    (g : List Char) (hg : lookupGame st.games room = some game)
    (hsec : game.secret ≠ []) (hst : game.started = true)
    (hw : isWord5 (g.map Char.toUpper) = true) :
    guessStep st sid room g =
      (⟨setGame st.games room
          { game with
            guesses := game.guesses ++ [g.map Char.toUpper]
            feedbacks := game.feedbacks ++ [evaluate (g.map Char.toUpper) game.secret] },
        st.rooms, st.connected⟩,
       [Out.toRoom room (Msg.guessResult (g.map Char.toUpper)
          (evaluate (g.map Char.toUpper) game.secret)
          ((evaluate (g.map Char.toUpper) game.secret).all
            (fun x => x = Feedback.correct))
          (((evaluate (g.map Char.toUpper) game.secret).all
              (fun x => x = Feedback.correct)) ||
            decide (6 ≤ game.guesses.length + 1))
          (game.guesses.length + 1))]) := by
  unfold guessStep
  rw [hg]
  dsimp only
  rw [if_neg (by simp [hsec, hst])]
  rw [if_neg (by simp [hw])]
  simp [List.length_append]

/-- C3 (amended): a well-formed 5-letter guess processed while the secret
is set and the round started is appended, uppercased, with its feedback
row; the handler broadcasts exactly one guess-result to the room with
won = all-five-correct, over = won or at-least-six guesses appended (the
6th guess and every later one), and the attempt count. -/
theorem guess_result_broadcast (st : ServerState) (sid room : String)
    (game : Game) (g : List Char) (hg : lookupGame st.games room = some game)
    (hsec : game.secret ≠ []) (hst : game.started = true)
    (hw : isWord5 (g.map Char.toUpper) = true) :
    lookupGame (guessStep st sid room g).1.games room =
      some { game with
        guesses := game.guesses ++ [g.map Char.toUpper]
        feedbacks := game.feedbacks ++ [evaluate (g.map Char.toUpper) game.secret] } ∧
    (guessStep st sid room g).2 =
      [Out.toRoom room (Msg.guessResult (g.map Char.toUpper)
        (evaluate (g.map Char.toUpper) game.secret)
        ((evaluate (g.map Char.toUpper) game.secret).all
          (fun x => x = Feedback.correct))
        (((evaluate (g.map Char.toUpper) game.secret).all
            (fun x => x = Feedback.correct)) ||
          decide (6 ≤ game.guesses.length + 1))
        (game.guesses.length + 1))] := by
  rw [guessStep_run st sid room game g hg hsec hst hw]
  exact ⟨lookupGame_setGame_self _ _ _, rfl⟩

/-- Witness for `guess_result_broadcast`: guess "CRANE" against secret
"CRANE" on the first attempt gives five corrects, `won = true`,
`over = true`, attempts 1. -/
theorem guess_result_broadcast_witness :
    lookupGame (guessStep startedSt sidB roomR wCRANE).1.games roomR =
      some { startedGame with
        guesses := [wCRANE]
        feedbacks := [[Feedback.correct, Feedback.correct, Feedback.correct,
          Feedback.correct, Feedback.correct]] } ∧
    (guessStep startedSt sidB roomR wCRANE).2 =
      [Out.toRoom roomR (Msg.guessResult wCRANE
        [Feedback.correct, Feedback.correct, Feedback.correct, Feedback.correct,
          Feedback.correct]
        true true 1)] := by
  have h := guess_result_broadcast startedSt sidB roomR startedGame wCRANE
    (by decide) (by decide) rfl (by decide)
  exact ⟨h.1.trans (by decide), h.2.trans (by decide)⟩

/-- Counterexample to C3 as stated: in state `cexSt6` the round already
holds six guesses, yet a seventh well-formed guess is processed and
broadcast with `over = true`, although that guess is neither the 6th nor
a win — `over` is not "won or the appended guess is the 6th". -/
theorem guess_seventh_over_cex :
    (guessStep cexSt6 sidB roomR wAAAAA).2 =
      [Out.toRoom roomR (Msg.guessResult wAAAAA fbA false true 7)] ∧
    ¬(false = true ∨ 7 = 6) :=
  ⟨by decide, by decide⟩

/-- C2 (amended): the guess handler has no round-over or attempt-limit
guard: whenever the secret is set and the round started, any well-formed
guess is appended (the count can pass 6); guesses stop only once the
secret is cleared or `started` is false, which is what a role swap
does. -/
theorem guess_unbounded (st : ServerState) (sid room : String) (game : Game)
    (g : List Char) (hg : lookupGame st.games room = some game) :
    (game.secret ≠ [] → game.started = true → isWord5 (g.map Char.toUpper) = true →
      (lookupGame (guessStep st sid room g).1.games room).map
        (fun g2 => g2.guesses.length) = some (game.guesses.length + 1)) ∧
    (game.secret = [] ∨ game.started = false → guessStep st sid room g = (st, [])) := by
  constructor
  · intro hsec hst hw
    rw [guessStep_run st sid room game g hg hsec hst hw]
    rw [lookupGame_setGame_self]
    simp
  · intro hstop
    unfold guessStep
    rw [hg]
    dsimp only
    rw [if_pos ?_]
    rcases hstop with hsec | hst
    · simp [hsec]
    · simp [hst]

/-- Witness for `guess_unbounded`: in `cexSt6`, which already holds six
guesses, a seventh guess is still appended. -/
theorem guess_unbounded_witness :
    (lookupGame (guessStep cexSt6 sidB roomR wAAAAA).1.games roomR).map
      (fun g2 => g2.guesses.length) = some 7 := by
  have h := (guess_unbounded cexSt6 sidB roomR cexGame6 wAAAAA (by decide)).1
    (by decide) rfl (by decide)
  exact h.trans (by decide)

/-- C10: the guess handler is case-insensitive — it behaves identically
on a guess and on its uppercase normalization, so a lower- or mixed-case
guess is validated, evaluated, stored and broadcast in uppercase form. -/
theorem guess_case_insensitive (st : ServerState) (sid room : String)
    (g : List Char) :
    guessStep st sid room (g.map Char.toUpper) = guessStep st sid room g := by
  unfold guessStep
  cases hlk : lookupGame st.games room with
  | none => rfl
  | some game =>
    dsimp only
    rw [map_toUpper_idem]

/-- Counterexample to C2 as stated: the state `t12`, reached by create,
join, set-word and seven well-formed guesses, is a reachable session
whose `guesses` list holds 7 entries — the 6-guess bound is not enforced
and the 7th guess was accepted after the round was over. -/
theorem guesses_exceed_six_cex :
    Reachable t12 ∧
    (lookupGame t12.games roomR).map (fun g2 => g2.guesses.length) = some 7 := by
  refine ⟨?_, by decide⟩
  have r1 : Reachable t1 := Reachable.connect t0 sidA Reachable.boot
  have r2 : Reachable t2 := Reachable.connect t1 sidB r1
  have r3 : Reachable t3 := Reachable.create t2 sidA roomR r2 (by decide)
  have r4 : Reachable t4 := Reachable.join t3 sidB roomR r3 (by decide)
  have r5 : Reachable t5 := Reachable.setWord t4 sidA roomR wCRANE r4 (by decide)
  have r6 : Reachable t6 := Reachable.guess t5 sidB roomR wAAAAA r5 (by decide)
  have r7 : Reachable t7 := Reachable.guess t6 sidB roomR wAAAAA r6 (by decide)
  have r8 : Reachable t8 := Reachable.guess t7 sidB roomR wAAAAA r7 (by decide)
  have r9 : Reachable t9 := Reachable.guess t8 sidB roomR wAAAAA r8 (by decide)
  have r10 : Reachable t10 := Reachable.guess t9 sidB roomR wAAAAA r9 (by decide)
  have r11 : Reachable t11 := Reachable.guess t10 sidB roomR wAAAAA r10 (by decide)
  exact Reachable.guess t11 sidB roomR wAAAAA r11 (by decide)

-- ## Disconnect-handler lemmas

theorem roomMembers_removeSock (rooms : List (String × List String))
    (sid room : String) :
    roomMembers (removeSock rooms sid) room =
      (roomMembers rooms room).filter (fun i => i ≠ sid) := by
  induction rooms with
  | nil => simp [removeSock, roomMembers]
  | cons p ps ih =>
    by_cases h : p.1 = room
    · simp [removeSock, roomMembers, h]
    · simp only [removeSock, List.map_cons, roomMembers, h, if_neg]
      simpa [removeSock] using ih

theorem dcEntry_key (rooms1 : List (String × List String)) (sid : String)
    (p q : String × Game) (h : dcEntry rooms1 sid p = some q) : q.1 = p.1 := by
  unfold dcEntry at h
  dsimp only at h
  split at h
  · exact absurd h (by simp)
  · split at h
    · injection h with h2
      rw [← h2]
    · injection h with h2
      rw [← h2]

theorem lookupGame_filterMap_dcEntry_none (rooms1 : List (String × List String))
    (sid room : String) (m : List (String × Game))
    (h : roomMembers rooms1 room = []) :
    lookupGame (m.filterMap (dcEntry rooms1 sid)) room = none := by
  induction m with
  | nil => rfl
  | cons p ps ih =>
    by_cases hk : p.1 = room
    · have hnone : dcEntry rooms1 sid p = none := by
        unfold dcEntry
        dsimp only
        rw [if_pos (by rw [hk, h]; rfl)]
      simp only [List.filterMap_cons, hnone]
      exact ih
    · cases hd : dcEntry rooms1 sid p with
      | none =>
        simp only [List.filterMap_cons, hd]
        exact ih
      | some q =>
        have hq : q.1 = p.1 := dcEntry_key rooms1 sid p q hd
        simp only [List.filterMap_cons, hd, lookupGame]
        rw [if_neg (by rw [hq]; exact hk)]
        exact ih

theorem lookupGame_filterMap_dcEntry_some (rooms1 : List (String × List String))
    (sid room : String) (m : List (String × Game)) (game : Game)
    (hg : lookupGame m room = some game)
    (hne : roomMembers rooms1 room ≠ []) :
    lookupGame (m.filterMap (dcEntry rooms1 sid)) room =
      some (if game.setterSocketId = some sid
            then { game with
                    setterSocketId :=
                      (roomMembers rooms1 room).find? (fun i => i ≠ sid) }
            else game) := by
  induction m with
  | nil => simp [lookupGame] at hg
  | cons p ps ih =>
    by_cases hk : p.1 = room
    · have hpg : p.2 = game := by
        simp [lookupGame, hk] at hg
        exact hg
      have hd : dcEntry rooms1 sid p =
          some (p.1, if game.setterSocketId = some sid
            then { game with
                    setterSocketId :=
                      (roomMembers rooms1 room).find? (fun i => i ≠ sid) }
            else game) := by
        unfold dcEntry
        dsimp only
        rw [if_neg (by rw [hk]; simpa using hne)]
        rw [hpg, hk]
        by_cases hset : game.setterSocketId = some sid
        · rw [if_pos hset, if_pos hset]
        · rw [if_neg hset, if_neg hset]
      simp only [List.filterMap_cons, hd, lookupGame]
      rw [if_pos hk]
    · have hg2 : lookupGame ps room = some game := by
        simpa [lookupGame, hk] using hg
      cases hd : dcEntry rooms1 sid p with
      | none =>
        simp only [List.filterMap_cons, hd]
        exact ih hg2
      | some q =>
        have hq : q.1 = p.1 := dcEntry_key rooms1 sid p q hd
        simp only [List.filterMap_cons, hd, lookupGame]
        rw [if_neg (by rw [hq]; exact hk)]
        exact ih hg2

/-- C8: once the sole remaining member of a room disconnects, the room's
session is removed from the registry; every later join on the code fails
with "Room not found" and every later guess is a silent no-op. -/
theorem disconnect_sole_member_gc (st : ServerState) (sid room : String)
    (h : roomMembers st.rooms room = [sid]) :
    lookupGame (disconnectStep st sid).games room = none ∧
    (∀ sid2, joinStep (disconnectStep st sid) sid2 room =
      (disconnectStep st sid, [Out.toSocket sid2 (Msg.error errRoomNotFound)])) ∧
    (∀ sid2 g, guessStep (disconnectStep st sid) sid2 room g =
      (disconnectStep st sid, [])) := by
  have hmem : roomMembers (removeSock st.rooms sid) room = [] := by
    rw [roomMembers_removeSock, h]
    simp
  have hnone : lookupGame (disconnectStep st sid).games room = none := by
    unfold disconnectStep
    dsimp only
    exact lookupGame_filterMap_dcEntry_none _ _ _ _ hmem
  refine ⟨hnone, ?_, ?_⟩
  · intro sid2
    exact joinStep_notFound _ _ _ hnone
  · intro sid2 g
    unfold guessStep
    rw [hnone]

/-- Witness for `disconnect_sole_member_gc`: socket A, alone in its fresh
room, disconnects; the room is gone for join and guess alike. -/
theorem disconnect_sole_member_gc_witness :
    lookupGame (disconnectStep freshSt sidA).games roomR = none ∧
    joinStep (disconnectStep freshSt sidA) sidB roomR =
      (disconnectStep freshSt sidA, [Out.toSocket sidB (Msg.error errRoomNotFound)]) ∧
    guessStep (disconnectStep freshSt sidA) sidB roomR wAAAAA =
      (disconnectStep freshSt sidA, []) := by
  obtain ⟨h1, h2, h3⟩ := disconnect_sole_member_gc freshSt sidA roomR (by decide)
  exact ⟨h1, h2 sidB, h3 sidB wAAAAA⟩

/-- C9: the disconnect sweep never touches a surviving session's round
data — it only deletes empty rooms and reassigns `setterSocketId` when
the leaver held it; in particular the guesser seat stays occupied, so a
later join still fails with "Room full". -/
theorem disconnect_frame (st : ServerState) (sid room : String) (game : Game)
    (hg : lookupGame st.games room = some game)
    (hne : roomMembers (removeSock st.rooms sid) room ≠ []) :
    lookupGame (disconnectStep st sid).games room =
      some (if game.setterSocketId = some sid
            then { game with
                    setterSocketId :=
                      (roomMembers (removeSock st.rooms sid) room).find?
                        (fun i => i ≠ sid) }
            else game) ∧
    (game.players.contains Role.guesser = true →
      ∀ sid2, joinStep (disconnectStep st sid) sid2 room =
        (disconnectStep st sid, [Out.toSocket sid2 (Msg.error errRoomFull)])) := by
  have hlk : lookupGame (disconnectStep st sid).games room =
      some (if game.setterSocketId = some sid
            then { game with
                    setterSocketId :=
                      (roomMembers (removeSock st.rooms sid) room).find?
                        (fun i => i ≠ sid) }
            else game) := by
    unfold disconnectStep
    dsimp only
    exact lookupGame_filterMap_dcEntry_some _ _ _ _ _ hg hne
  refine ⟨hlk, ?_⟩
  intro hgs sid2
  by_cases hset : game.setterSocketId = some sid
  · rw [if_pos hset] at hlk
    exact joinStep_full _ _ _ _ hlk (by simpa using hgs)
  · rw [if_neg hset] at hlk
    exact joinStep_full _ _ _ _ hlk hgs

/-- Witness for `disconnect_frame`: the guesser (socket B) disconnects
from the six-guess room; the session survives with its round data intact
and a later join by socket C is refused with "Room full". -/
theorem disconnect_frame_witness :
    lookupGame (disconnectStep cexSt6 sidB).games roomR =
      some (if cexGame6.setterSocketId = some sidB
            then { cexGame6 with
                    setterSocketId :=
                      (roomMembers (removeSock cexSt6.rooms sidB) roomR).find?
                        (fun i => i ≠ sidB) }
            else cexGame6) ∧
    joinStep (disconnectStep cexSt6 sidB) sidC roomR =
      (disconnectStep cexSt6 sidB, [Out.toSocket sidC (Msg.error errRoomFull)]) := by
  obtain ⟨h1, h2⟩ := disconnect_frame cexSt6 sidB roomR cexGame6 (by decide) (by decide)
  exact ⟨h1, h2 (by decide) sidC⟩

-- ## The seat invariant

theorem playersOk_shape (game : Game) (h : playersOk game)
    (hng : game.players.contains Role.guesser = false) :
    game.players = [Role.setter] := by
  rcases h with h | h | h
  · exact h
  · rw [h] at hng
    simp at hng
  · rw [h] at hng
    simp at hng

theorem dcEntry_players (rooms1 : List (String × List String)) (sid : String)
    (a p : String × Game) (h : dcEntry rooms1 sid a = some p) :
    p.2.players = a.2.players := by
  unfold dcEntry at h
  dsimp only at h
  split at h
  · exact absurd h (by simp)
  · split at h
    · injection h with h2
      rw [← h2]
    · injection h with h2
      rw [← h2]

theorem reachable_playersOk (st : ServerState) (h : Reachable st) :
    ∀ p ∈ st.games, playersOk p.2 := by
  induction h with
  | boot => intro p hp; simp at hp
  | connect st sid _ ih => exact ih
  | create st sid room _ hconn ih =>
    intro p hp
    rcases mem_setGame st.games room _ p hp with rfl | h1
    · left
      rfl
    · exact ih p h1
  | join st sid room hR hconn ih =>
    intro p hp
    unfold joinStep at hp
    cases hlk : lookupGame st.games room with
    | none =>
      rw [hlk] at hp
      exact ih p hp
    | some game =>
      rw [hlk] at hp
      dsimp only at hp
      split at hp
      · exact ih p hp
      · split at hp
        · exact ih p hp
        · have hgame := ih (room, game) (lookupGame_mem _ _ _ hlk)
          have hsetter : game.players = [Role.setter] := by
            apply playersOk_shape game hgame
            next hc _ => simpa using hc
          split at hp
          · rcases mem_setGame _ room _ p hp with rfl | h1
            · unfold playersOk
              dsimp only
              rw [hsetter]
              right; left; rfl
            · rcases mem_setGame st.games room _ p h1 with rfl | h2
              · unfold playersOk
                dsimp only
                rw [hsetter]
                right; left; rfl
              · exact ih p h2
          · rcases mem_setGame st.games room _ p hp with rfl | h1
            · unfold playersOk
              dsimp only
              rw [hsetter]
              right; left; rfl
            · exact ih p h1
  | setWord st sid room word hR hconn ih =>
    intro p hp
    unfold setWordStep at hp
    cases hlk : lookupGame st.games room with
    | none =>
      rw [hlk] at hp
      exact ih p hp
    | some game =>
      rw [hlk] at hp
      dsimp only at hp
      split at hp
      · exact ih p hp
      · split at hp
        · exact ih p hp
        · split at hp
          · exact ih p hp
          · have hgame := ih (room, game) (lookupGame_mem _ _ _ hlk)
            split at hp
            · rcases mem_setGame st.games room _ p hp with rfl | h1
              · exact hgame
              · exact ih p h1
            · rcases mem_setGame st.games room _ p hp with rfl | h1
              · exact hgame
              · exact ih p h1
  | guess st sid room w hR hconn ih =>
    intro p hp
    unfold guessStep at hp
    cases hlk : lookupGame st.games room with
    | none =>
      rw [hlk] at hp
      exact ih p hp
    | some game =>
      rw [hlk] at hp
      dsimp only at hp
      split at hp
      · exact ih p hp
      · split at hp
        · exact ih p hp
        · have hgame := ih (room, game) (lookupGame_mem _ _ _ hlk)
          rcases mem_setGame st.games room _ p hp with rfl | h1
          · exact hgame
          · exact ih p h1
  | swap st sid room hR hconn ih =>
    intro p hp
    unfold swapStep at hp
    cases hlk : lookupGame st.games room with
    | none =>
      rw [hlk] at hp
      exact ih p hp
    | some game =>
      rw [hlk] at hp
      dsimp only at hp
      split at hp
      · exact ih p hp
      · have hgame := ih (room, game) (lookupGame_mem _ _ _ hlk)
        rcases mem_setGame st.games room _ p hp with rfl | h1
        · unfold playersOk
          dsimp only
          rcases hgame with hg2 | hg2 | hg2 <;> rw [hg2] <;> dsimp only
          · left; rfl
          · right; right; rfl
          · right; left; rfl
        · exact ih p h1
  | disconnect st sid hR ih =>
    intro p hp
    unfold disconnectStep at hp
    dsimp only at hp
    rw [List.mem_filterMap] at hp
    obtain ⟨a, ha, hda⟩ := hp
    have hpl : p.2.players = a.2.players := dcEntry_players _ _ _ _ hda
    have := ih a ha
    unfold playersOk at this ⊢
    rw [hpl]
    exact this

/-- C7: `request-role-swap` is a no-op — no state change and no messages —
unless the round is started and exactly two seats are filled (in every
reachable state the seat list never exceeds two); on success the secret,
guesses and feedback history are cleared, `locked` and `started` are
false, the two roles are exactly inverted, and the room stays registered
under its code. -/
theorem swap_spec (st : ServerState) (hR : Reachable st) (sid room : String) :
    (∀ game, lookupGame st.games room = some game →
      ¬(game.started = true ∧ game.players.length = 2) →
      swapStep st sid room = (st, [])) ∧
    (lookupGame st.games room = none → swapStep st sid room = (st, [])) ∧
    (∀ game, lookupGame st.games room = some game →
      game.started = true → game.players.length = 2 →
      lookupGame (swapStep st sid room).1.games room =
        some { game with
          players := game.players.reverse
          secret := []
          guesses := []
          feedbacks := []
          started := false
          locked := false
          setterSocketId :=
            ((roomMembers st.rooms room).find?
              (fun i => !(some i == game.setterSocketId))).orElse
              (fun _ => (roomMembers st.rooms room).head?) }) := by
  refine ⟨?_, ?_, ?_⟩
  · intro game hlk hno
    unfold swapStep
    rw [hlk]
    dsimp only
    rw [if_pos ?_]
    by_cases hst : game.started = true
    · have hpo := reachable_playersOk st hR (room, game) (lookupGame_mem _ _ _ hlk)
      have hlen : game.players.length = 1 := by
        rcases hpo with h | h | h
        · rw [h]; rfl
        · exact absurd ⟨hst, by rw [h]; rfl⟩ hno
        · exact absurd ⟨hst, by rw [h]; rfl⟩ hno
      simp [hlen]
    · simp [Bool.not_eq_true] at hst
      simp [hst]
  · intro hnone
    unfold swapStep
    rw [hnone]
  · intro game hlk hst hlen
    unfold swapStep
    rw [hlk]
    dsimp only
    rw [if_neg (by simp [hst, hlen])]
    obtain ⟨a, b, hab⟩ := List.length_eq_two.mp hlen
    rw [hab]
    dsimp only
    rw [lookupGame_setGame_self]
    simp

/-- Witness for `swap_spec`: swapping in the reachable started two-seat
session `t5` inverts the roles and clears the round; swapping in the
reachable one-seat session `freshSt` is a no-op. -/
theorem swap_spec_witness :
    lookupGame (swapStep t5 sidA roomR).1.games roomR =
      some { startedGame with
        players := startedGame.players.reverse
        secret := []
        guesses := []
        feedbacks := []
        started := false
        locked := false
        setterSocketId :=
          ((roomMembers t5.rooms roomR).find?
            (fun i => !(some i == startedGame.setterSocketId))).orElse
            (fun _ => (roomMembers t5.rooms roomR).head?) } ∧
    swapStep freshSt sidA roomR = (freshSt, []) := by
  have r1 : Reachable t1 := Reachable.connect t0 sidA Reachable.boot
  have r2 : Reachable t2 := Reachable.connect t1 sidB r1
  have r3 : Reachable t3 := Reachable.create t2 sidA roomR r2 (by decide)
  have r4 : Reachable t4 := Reachable.join t3 sidB roomR r3 (by decide)
  have r5 : Reachable t5 := Reachable.setWord t4 sidA roomR wCRANE r4 (by decide)
  have rf : Reachable freshSt := Reachable.create t1 sidA roomR r1 (by decide)
  constructor
  · exact (swap_spec t5 r5 sidA roomR).2.2 startedGame (by decide) rfl rfl
  · exact (swap_spec freshSt rf sidA roomR).1 freshGame (by decide) (by decide)
